import Mathlib

/-!
Verification of `itunes_albums_to_remove.py`.

The development shallowly embeds the program's core: the XML-to-record
extractor (`Track.from_xml`, `snake_case`, `star_rating`) and the
track-to-album aggregator (`Library.to_albums`, `Album`).  Python's dynamic
values are embedded as the inductive `Value`; Python exceptions surface as
`Except PyError`; Python's insertion-ordered `dict` is an association list
with the same update/remove/lookup semantics.  A track XML node is embedded
as its alternating key/value pair list (element text), which is exactly the
data `Track.from_xml` consumes.
-/

namespace ITunes

/-- Python exceptions that the embedded code can raise. -/
inductive PyError where
  | valueError (msg : String)
  | indexError
  | typeError
  | zeroDivisionError
deriving DecidableEq, Repr

/-- A dynamic Python value as it occurs in the extractor: an XML text string,
an `int` produced by a numeric transform, or `None`. -/
inductive Value where
  | str (s : String)
  | int (n : Int)
  | nil
deriving DecidableEq, Repr

/-- Embeds `snake_case`: `title_case_str.lower().replace(" ", "_")`.
`str.lower` acts characterwise (ASCII range, which covers the field names of
the library format) and `str.replace` with the one-character pattern `" "`
acts characterwise as well. -/
def snake_case (title_case_str : String) : String :=
  ⟨(title_case_str.data.map Char.toLower).map (fun c => if c = ' ' then '_' else c)⟩

/-- Decimal digit run parsed as a natural number; `Option.none` when the run is
empty or contains a non-digit. -/
def decimalNat (cs : List Char) : Option Nat :=
  if cs ≠ [] ∧ cs.all (fun c => 48 ≤ c.toNat ∧ c.toNat ≤ 57) then
    some (cs.foldl (fun n c => n * 10 + (c.toNat - 48)) 0)
  else
    Option.none

/-- Embeds Python `int(s)` on a string: an optional sign followed by decimal
digits; anything else raises `ValueError`. -/
def pyStrToInt (s : String) : Option Int :=
  match s.data with
  | '-' :: rest => (decimalNat rest).map (fun n => -(n : Int))
  | '+' :: rest => (decimalNat rest).map (fun n => (n : Int))
  | cs => (decimalNat cs).map (fun n => (n : Int))

/-- Embeds Python `int(v)` on a dynamic value; `Option.none` stands for the
raised exception. -/
def pyIntValue : Value → Option Int
  | .str s => pyStrToInt s
  | .int n => some n
  | .nil => Option.none

/-- Embeds `star_rating`: `int(percent_rating) // 20 if percent_rating is not
None else 0`.  `//` is Python floor division, hence `Int.fdiv`; a
non-numeric string raises `ValueError` from `int()`. -/
def star_rating (percent_rating : Value) : Except PyError Int :=
  match percent_rating with
  | .nil => Except.ok 0
  | v =>
    match pyIntValue v with
    | some n => Except.ok (Int.fdiv n 20)
    | Option.none => Except.error (PyError.valueError "invalid literal for int() with base 10")

/-- Lookup in an insertion-ordered Python dict (`d[k]` / `d.get(k)`). -/
def dget : List (String × Value) → String → Option Value
  | [], _ => Option.none
  | p :: ps, k => if p.1 = k then some p.2 else dget ps k

/-- Update in an insertion-ordered Python dict: `d[k] = v` overwrites an
existing entry in place or appends a new entry at the end. -/
def dset : List (String × Value) → String → Value → List (String × Value)
  | [], k, v => [(k, v)]
  | p :: ps, k, v => if p.1 = k then (k, v) :: ps else p :: dset ps k v

/-- Removal from an insertion-ordered Python dict (`d.pop(k)` discarding the
returned value); keys are unique, so removing the first match suffices. -/
def dpop : List (String × Value) → String → List (String × Value)
  | [], _ => []
  | p :: ps, k => if p.1 = k then ps else p :: dpop ps k

/-- The dict built from a track node by the loop in `Track.from_xml`: each
`key` element's text is snake-cased and mapped to the text of the immediately
following sibling element. -/
def buildDict (pairs : List (String × String)) : List (String × Value) :=
  pairs.foldl (fun acc kv => dset acc (snake_case kv.1) (Value.str kv.2)) []

/-- The `Track` dataclass as `Track.from_xml` actually populates it: Python
does not coerce constructor arguments, so every field holds a dynamic
`Value`.  Defaults are those of the dataclass declaration. -/
structure TrackXml where
  track_id : Value
  name : Value
  artist : Value
  album : Value
  rating : Value
  track_number : Value
  year : Value
  file_size : Value
  time : Value
deriving DecidableEq, Repr

/-- The `if "rating" in d` block of `Track.from_xml`: replace the percent
rating by `star_rating(d["rating"])`; `star_rating` can raise. -/
def ratingStep (d : List (String × Value)) : Except PyError (List (String × Value)) :=
  match dget d "rating" with
  | Option.none => Except.ok d
  | some v =>
    match star_rating v with
    | Except.error e => Except.error e
    | Except.ok n => Except.ok (dset d "rating" (Value.int n))

/-- The `if "total_time" in d` block of `Track.from_xml`:
`d["time"] = d.pop("total_time")`. -/
def timeStep (d : List (String × Value)) : List (String × Value) :=
  match dget d "total_time" with
  | Option.none => d
  | some v => dset (dpop d "total_time") "time" v

/-- The `if "size" in d` block of `Track.from_xml`:
`d["file_size"] = int(d.pop("size"))`; `int` can raise. -/
def sizeStep (d : List (String × Value)) : Except PyError (List (String × Value)) :=
  match dget d "size" with
  | Option.none => Except.ok d
  | some v =>
    match pyIntValue v with
    | some n => Except.ok (dset (dpop d "size") "file_size" (Value.int n))
    | Option.none => Except.error (PyError.valueError "invalid literal for int() with base 10")

/-- The final step of `Track.from_xml`: drop keys that are not dataclass
parameters and call the constructor; absent fields take their dataclass
defaults, while a missing `track_id` or `name` is a `TypeError`. -/
def mkTrackXml (d : List (String × Value)) : Except PyError TrackXml :=
  match dget d "track_id", dget d "name" with
  | some tid, some nm =>
    Except.ok
      ⟨tid, nm,
        (dget d "artist").getD (Value.str ""),
        (dget d "album").getD (Value.str ""),
        (dget d "rating").getD (Value.int 0),
        (dget d "track_number").getD Value.nil,
        (dget d "year").getD Value.nil,
        (dget d "file_size").getD (Value.int 0),
        (dget d "time").getD (Value.int 0)⟩
  | _, _ => Except.error PyError.typeError

/-- Embeds `Track.from_xml`: build the snake-cased dict of key/value texts,
convert `rating` through `star_rating`, rename `total_time` to `time`,
rename `size` to `file_size` parsing it with `int`, then construct the
record. -/
def TrackXml.from_xml (pairs : List (String × String)) : Except PyError TrackXml :=
  match ratingStep (buildDict pairs) with
  | Except.error e => Except.error e
  | Except.ok d1 =>
    match sizeStep (timeStep d1) with
    | Except.error e => Except.error e
    | Except.ok d3 => mkTrackXml d3

/-- The `Track` dataclass with the types its declaration annotates, used by
the aggregator (`Library`/`Album`), whose claims do not depend on the dynamic
typing of the extractor. -/
structure Track where
  track_id : Int
  name : String
  artist : String := ""
  album : String := ""
  rating : Int := 0
  track_number : Option Int := Option.none
  year : Option Int := Option.none
  file_size : Int := 0
  time : Option Int := some 0
deriving DecidableEq, Repr

/-- Python string comparison `a <= b` on the underlying character lists:
lexicographic by code point. -/
def charListLeb : List Char → List Char → Bool
  | [], _ => true
  | _ :: _, [] => false
  | a :: as, b :: bs =>
    if a.toNat < b.toNat then true
    else if a.toNat = b.toNat then charListLeb as bs
    else false

/-- Python string comparison `a <= b` as a relation on strings. -/
def pyStrLe (a b : String) : Prop := charListLeb a.data b.data = true

instance : DecidableRel pyStrLe := fun a b =>
  (inferInstance : Decidable (charListLeb a.data b.data = true))

/-- The error message of the `ValueError` raised by `Album.__init__` on
tracks with differing album names. -/
def albumMismatchMsg : String :=
  "Cannot create an album from tracks that do not share the same album property."

/-- The `Album` state after `__init__`: the track list plus the eagerly
computed `name`, `artists` (`sorted(list(set(...)))`) and `_ratings`. -/
structure Album where
  tracks : List Track
  name : String
  artists : List String
  ratings : List Int
deriving DecidableEq, Repr

/-- Embeds `Album.__init__`.  The `all(...)` membership check runs first and
raises `ValueError` on an album-name mismatch; on the empty list that check
passes vacuously and `tracks[0].album` then raises `IndexError`. -/
def Album.init (tracks : List Track) : Except PyError Album :=
  match tracks with
  | [] => Except.error PyError.indexError
  | t0 :: _ =>
    if tracks.all (fun t => t.album = t0.album) then
      Except.ok
        ⟨tracks, t0.album,
          List.insertionSort pyStrLe ((tracks.map (fun t => t.artist)).dedup),
          tracks.map (fun t => t.rating)⟩
    else
      Except.error (PyError.valueError albumMismatchMsg)

/-- Embeds `Album.min_rating`: Python `min` over `_ratings`, raising
`ValueError` on an empty sequence. -/
def Album.min_rating (a : Album) : Except PyError Int :=
  match a.ratings with
  | [] => Except.error (PyError.valueError "min() arg is an empty sequence")
  | r :: rs => Except.ok (rs.foldl min r)

/-- Embeds `Album.max_rating`: Python `max` over `_ratings`, raising
`ValueError` on an empty sequence. -/
def Album.max_rating (a : Album) : Except PyError Int :=
  match a.ratings with
  | [] => Except.error (PyError.valueError "max() arg is an empty sequence")
  | r :: rs => Except.ok (rs.foldl max r)

/-- Embeds `Album.avg_rating`: `sum(self._ratings) / len(self._ratings)`,
exact rational arithmetic in place of Python floats; division by zero raises
`ZeroDivisionError`. -/
def Album.avg_rating (a : Album) : Except PyError Rat :=
  match a.ratings with
  | [] => Except.error PyError.zeroDivisionError
  | _ => Except.ok ((a.ratings.sum : Rat) / (a.ratings.length : Rat))

/-- Embeds `Library`: a plain collection of tracks. -/
structure Library where
  tracks : List Track
deriving DecidableEq, Repr

/-- The grouping key of `Library.to_albums`: `(t.album, t.year)`. -/
def groupKey (t : Track) : String × Option Int := (t.album, t.year)

/-- One iteration of the grouping loop in `Library.to_albums`: create the
key's empty list when absent, then append the track to its key's list. -/
def addTrack (acc : List ((String × Option Int) × List Track)) (t : Track) :
    List ((String × Option Int) × List Track) :=
  if acc.any (fun p => p.1 = groupKey t) then
    acc.map (fun p => if p.1 = groupKey t then (p.1, p.2 ++ [t]) else p)
  else
    acc ++ [(groupKey t, [t])]

/-- The `album_tracks_dict` of `Library.to_albums` in insertion order. -/
def groupTracks (ts : List Track) : List ((String × Option Int) × List Track) :=
  ts.foldl addTrack []

/-- One step of the key order of `album_tracks_dict`: a Python dict keeps
keys in first-insertion order. -/
def keyStep (acc : List (String × Option Int)) (t : Track) : List (String × Option Int) :=
  if groupKey t ∈ acc then acc else acc ++ [groupKey t]

/-- The keys of `album_tracks_dict` in first-seen order. -/
def firstKeys (ts : List Track) : List (String × Option Int) :=
  ts.foldl keyStep []

/-- A Python list comprehension over a fallible body: the first raised
exception propagates. -/
def mapExcept (f : α → Except PyError β) : List α → Except PyError (List β)
  | [] => Except.ok []
  | x :: xs =>
    match f x with
    | Except.error e => Except.error e
    | Except.ok y =>
      match mapExcept f xs with
      | Except.error e => Except.error e
      | Except.ok ys => Except.ok (y :: ys)

/-- Embeds `Library.to_albums`: group the tracks by `(album, year)` into
`album_tracks_dict`, then build one `Album` per value list. -/
def Library.to_albums (lib : Library) : Except PyError (List Album) :=
  mapExcept (fun p => Album.init p.2) (groupTracks lib.tracks)

/-! ## Dict lemmas -/

theorem dget_dset (d : List (String × Value)) (k : String) (v : Value) (k' : String) :
    dget (dset d k v) k' = if k' = k then some v else dget d k' := by
  induction d with
  | nil =>
    by_cases h : k' = k
    · subst h; simp [dset, dget]
    · have h2 : ¬ (k = k') := fun hh => h hh.symm
      simp [dset, dget, h, h2]
  | cons p ps ih =>
    by_cases hp : p.1 = k
    · by_cases h : k' = k
      · subst h; simp [dset, dget, hp]
      · have h2 : ¬ (k = k') := fun hh => h hh.symm
        have h3 : ¬ (p.1 = k') := fun hh => h2 (hp.symm.trans hh)
        simp [dset, dget, hp, h, h2, h3]
    · simp only [dset, if_neg hp, dget]
      by_cases hq : p.1 = k'
      · have h3 : ¬ (k' = k) := fun hh => hp (hq.trans hh)
        simp [hq, h3]
      · simp [hq, ih]

theorem dget_dpop_ne (d : List (String × Value)) (k k' : String) (h : k' ≠ k) :
    dget (dpop d k) k' = dget d k' := by
  induction d with
  | nil => rfl
  | cons p ps ih =>
    have h4 : ¬ (k = k') := fun hh => h hh.symm
    by_cases hp : p.1 = k
    · have h3 : ¬ (p.1 = k') := fun hh => h (hh.symm.trans hp)
      simp [dpop, dget, hp, h3, h4]
    · by_cases hq : p.1 = k' <;> simp [dpop, dget, hp, hq, ih, h]

theorem dget_buildDict_str (pairs : List (String × String)) (k : String) (v : Value)
    (h : dget (buildDict pairs) k = some v) : ∃ s, v = Value.str s := by
  suffices H : ∀ (acc : List (String × Value)),
      (∀ k v, dget acc k = some v → ∃ s, v = Value.str s) →
      ∀ k v, dget (pairs.foldl (fun acc kv => dset acc (snake_case kv.1) (Value.str kv.2)) acc) k
          = some v → ∃ s, v = Value.str s by
    exact H [] (by intro k v h2; cases h2) k v h
  clear h k v
  induction pairs with
  | nil => intro acc hacc; exact hacc
  | cons kv rest ih =>
    intro acc hacc k v h
    refine ih (dset acc (snake_case kv.1) (Value.str kv.2)) ?_ k v h
    intro k2 v2 h2
    rw [dget_dset] at h2
    by_cases hk : k2 = snake_case kv.1
    · rw [if_pos hk] at h2
      exact ⟨kv.2, (Option.some.inj h2).symm⟩
    · rw [if_neg hk] at h2
      exact hacc k2 v2 h2

/-! ## Step lemmas for `Track.from_xml` -/

theorem ratingStep_ok_ne (d d' : List (String × Value)) (h : ratingStep d = Except.ok d')
    (k : String) (hk : k ≠ "rating") : dget d' k = dget d k := by
  cases hr : dget d "rating" with
  | none =>
    simp only [ratingStep, hr, Except.ok.injEq] at h
    rw [h]
  | some v =>
    cases hs : star_rating v with
    | error e =>
      simp only [ratingStep, hr, hs] at h
      exact Except.noConfusion h
    | ok n =>
      simp only [ratingStep, hr, hs, Except.ok.injEq] at h
      rw [← h, dget_dset, if_neg hk]

theorem ratingStep_ok_rating (d d' : List (String × Value)) (v : Value)
    (h : ratingStep d = Except.ok d') (hv : dget d "rating" = some v) :
    ∃ n, dget d' "rating" = some (Value.int n) := by
  cases hs : star_rating v with
  | error e =>
    simp only [ratingStep, hv, hs] at h
    exact Except.noConfusion h
  | ok n =>
    simp only [ratingStep, hv, hs, Except.ok.injEq] at h
    refine ⟨n, ?_⟩
    rw [← h, dget_dset, if_pos rfl]

theorem timeStep_ne (d : List (String × Value)) (k : String)
    (hk1 : k ≠ "time") (hk2 : k ≠ "total_time") : dget (timeStep d) k = dget d k := by
  rw [timeStep]
  cases ht : dget d "total_time" with
  | none => rfl
  | some v => rw [dget_dset, if_neg hk1, dget_dpop_ne d _ _ hk2]

theorem timeStep_time (d : List (String × Value)) (v : Value)
    (hv : dget d "total_time" = some v) : dget (timeStep d) "time" = some v := by
  rw [timeStep, hv, dget_dset, if_pos rfl]

theorem sizeStep_ok_ne (d d' : List (String × Value)) (h : sizeStep d = Except.ok d')
    (k : String) (hk1 : k ≠ "file_size") (hk2 : k ≠ "size") : dget d' k = dget d k := by
  cases hs : dget d "size" with
  | none =>
    simp only [sizeStep, hs, Except.ok.injEq] at h
    rw [h]
  | some v =>
    cases hn : pyIntValue v with
    | none =>
      simp only [sizeStep, hs, hn] at h
      exact Except.noConfusion h
    | some n =>
      simp only [sizeStep, hs, hn, Except.ok.injEq] at h
      rw [← h, dget_dset, if_neg hk1, dget_dpop_ne d _ _ hk2]

theorem sizeStep_ok_size (d d' : List (String × Value)) (v : Value)
    (h : sizeStep d = Except.ok d') (hv : dget d "size" = some v) :
    ∃ n, dget d' "file_size" = some (Value.int n) := by
  cases hn : pyIntValue v with
  | none =>
    simp only [sizeStep, hv, hn] at h
    exact Except.noConfusion h
  | some n =>
    simp only [sizeStep, hv, hn, Except.ok.injEq] at h
    refine ⟨n, ?_⟩
    rw [← h, dget_dset, if_pos rfl]

theorem mkTrackXml_ok (d : List (String × Value)) (t : TrackXml)
    (h : mkTrackXml d = Except.ok t) :
    ∃ tid nm, dget d "track_id" = some tid ∧ dget d "name" = some nm ∧
      t = ⟨tid, nm,
        (dget d "artist").getD (Value.str ""),
        (dget d "album").getD (Value.str ""),
        (dget d "rating").getD (Value.int 0),
        (dget d "track_number").getD Value.nil,
        (dget d "year").getD Value.nil,
        (dget d "file_size").getD (Value.int 0),
        (dget d "time").getD (Value.int 0)⟩ := by
  cases h1 : dget d "track_id" with
  | none =>
    simp only [mkTrackXml, h1] at h
    exact Except.noConfusion h
  | some tid =>
    cases h2 : dget d "name" with
    | none =>
      simp only [mkTrackXml, h1, h2] at h
      exact Except.noConfusion h
    | some nm =>
      simp only [mkTrackXml, h1, h2, Except.ok.injEq] at h
      exact ⟨tid, nm, rfl, rfl, h.symm⟩

/-- Lookups of an unrenamed, uncoerced key pass unchanged from the built dict
through all three transform steps of `Track.from_xml`. -/
theorem from_xml_chain (pairs : List (String × String)) (d1 d3 : List (String × Value))
    (h1 : ratingStep (buildDict pairs) = Except.ok d1)
    (h2 : sizeStep (timeStep d1) = Except.ok d3) (k : String)
    (hk1 : k ≠ "rating") (hk2 : k ≠ "time") (hk3 : k ≠ "total_time")
    (hk4 : k ≠ "file_size") (hk5 : k ≠ "size") :
    dget d3 k = dget (buildDict pairs) k := by
  rw [sizeStep_ok_ne _ _ h2 k hk4 hk5, timeStep_ne _ _ hk2 hk3,
    ratingStep_ok_ne _ _ h1 k hk1]

/-- Sample track node of the spec's round-trip property, embedded as its
key/value element texts. -/
def sampleTrackPairs : List (String × String) :=
  [("Track ID", "5"), ("Name", "X"), ("Artist", "Y"), ("Album", "Z"),
    ("Rating", "60"), ("Total Time", "2000"), ("Size", "500")]

/-- The record `Track.from_xml` actually builds from `sampleTrackPairs`. -/
def sampleTrackXml : TrackXml :=
  ⟨Value.str "5", Value.str "X", Value.str "Y", Value.str "Z", Value.int 3,
    Value.nil, Value.nil, Value.int 500, Value.str "2000"⟩

/-- The record the round-trip sentence asserts, with integer-typed `track_id`
and `time`. -/
def claimedTrackXml : TrackXml :=
  ⟨Value.int 5, Value.str "X", Value.str "Y", Value.str "Z", Value.int 3,
    Value.nil, Value.nil, Value.int 500, Value.int 2000⟩

/-- C1 (counterexample): on the spec's round-trip input, `Track.from_xml`
does not return the claimed record with integer-typed `track_id = 5` and
`time = 2000`; it leaves both as the raw strings. -/
theorem trackFromXml_sample_not_integer_typed :
    TrackXml.from_xml sampleTrackPairs ≠ Except.ok claimedTrackXml := by
  intro h
  rw [show TrackXml.from_xml sampleTrackPairs = Except.ok sampleTrackXml from rfl] at h
  exact absurd (Except.ok.inj h) (by decide)

/-- C1 (amended): extracting the track node with fields
Track ID "5", Name "X", Artist "Y", Album "Z", Rating "60", Total Time "2000",
Size "500" yields exactly the record with rating 3 and file_size 500 as
integers, track_number and year absent, and track_id "5", name "X",
artist "Y", album "Z", time "2000" as the raw element text strings. -/
theorem trackFromXml_sample_raw_strings :
    TrackXml.from_xml sampleTrackPairs = Except.ok sampleTrackXml := rfl

/-- C2: `Track.from_xml` applies numeric coercion only to `rating`
(percent-to-star) and `size` (parsed into `file_size`); every other captured
field reaches the record as the raw element text string, and every value of
the built dict is such a string. -/
theorem trackFromXml_coerces_only_rating_and_size (pairs : List (String × String))
    (t : TrackXml) (h : TrackXml.from_xml pairs = Except.ok t) :
    (∀ v, dget (buildDict pairs) "track_id" = some v → t.track_id = v) ∧
    (∀ v, dget (buildDict pairs) "name" = some v → t.name = v) ∧
    (∀ v, dget (buildDict pairs) "artist" = some v → t.artist = v) ∧
    (∀ v, dget (buildDict pairs) "album" = some v → t.album = v) ∧
    (∀ v, dget (buildDict pairs) "track_number" = some v → t.track_number = v) ∧
    (∀ v, dget (buildDict pairs) "year" = some v → t.year = v) ∧
    (∀ v, dget (buildDict pairs) "total_time" = some v → t.time = v) ∧
    (∀ v, dget (buildDict pairs) "rating" = some v → ∃ n, t.rating = Value.int n) ∧
    (∀ v, dget (buildDict pairs) "size" = some v → ∃ n, t.file_size = Value.int n) ∧
    (∀ k v, dget (buildDict pairs) k = some v → ∃ s, v = Value.str s) := by
  cases h1 : ratingStep (buildDict pairs) with
  | error e =>
    simp only [TrackXml.from_xml, h1] at h
    exact Except.noConfusion h
  | ok d1 =>
    cases h2 : sizeStep (timeStep d1) with
    | error e =>
      simp only [TrackXml.from_xml, h1, h2] at h
      exact Except.noConfusion h
    | ok d3 =>
      simp only [TrackXml.from_xml, h1, h2] at h
      obtain ⟨tid, nm, htid, hnm, ht⟩ := mkTrackXml_ok d3 t h
      subst ht
      refine ⟨?_, ?_, ?_, ?_, ?_, ?_, ?_, ?_, ?_, ?_⟩
      · intro v hv
        have hc := from_xml_chain pairs d1 d3 h1 h2 "track_id"
          (by decide) (by decide) (by decide) (by decide) (by decide)
        exact Option.some.inj (htid.symm.trans (hc.trans hv))
      · intro v hv
        have hc := from_xml_chain pairs d1 d3 h1 h2 "name"
          (by decide) (by decide) (by decide) (by decide) (by decide)
        exact Option.some.inj (hnm.symm.trans (hc.trans hv))
      · intro v hv
        have hc := from_xml_chain pairs d1 d3 h1 h2 "artist"
          (by decide) (by decide) (by decide) (by decide) (by decide)
        show (dget d3 "artist").getD (Value.str "") = v
        rw [hc, hv]
        rfl
      · intro v hv
        have hc := from_xml_chain pairs d1 d3 h1 h2 "album"
          (by decide) (by decide) (by decide) (by decide) (by decide)
        show (dget d3 "album").getD (Value.str "") = v
        rw [hc, hv]
        rfl
      · intro v hv
        have hc := from_xml_chain pairs d1 d3 h1 h2 "track_number"
          (by decide) (by decide) (by decide) (by decide) (by decide)
        show (dget d3 "track_number").getD Value.nil = v
        rw [hc, hv]
        rfl
      · intro v hv
        have hc := from_xml_chain pairs d1 d3 h1 h2 "year"
          (by decide) (by decide) (by decide) (by decide) (by decide)
        show (dget d3 "year").getD Value.nil = v
        rw [hc, hv]
        rfl
      · intro v hv
        have hv1 : dget d1 "total_time" = some v := by
          rw [ratingStep_ok_ne _ _ h1 "total_time" (by decide)]
          exact hv
        have hv2 : dget (timeStep d1) "time" = some v := timeStep_time d1 v hv1
        have hv3 : dget d3 "time" = some v := by
          rw [sizeStep_ok_ne _ _ h2 "time" (by decide) (by decide)]
          exact hv2
        show (dget d3 "time").getD (Value.int 0) = v
        rw [hv3]
        rfl
      · intro v hv
        obtain ⟨n, hn⟩ := ratingStep_ok_rating _ d1 v h1 hv
        have hn3 : dget d3 "rating" = some (Value.int n) := by
          rw [sizeStep_ok_ne _ _ h2 "rating" (by decide) (by decide),
            timeStep_ne d1 "rating" (by decide) (by decide)]
          exact hn
        refine ⟨n, ?_⟩
        show (dget d3 "rating").getD (Value.int 0) = Value.int n
        rw [hn3]
        rfl
      · intro v hv
        have hv2 : dget (timeStep d1) "size" = some v := by
          rw [timeStep_ne d1 "size" (by decide) (by decide),
            ratingStep_ok_ne _ _ h1 "size" (by decide)]
          exact hv
        obtain ⟨n, hn⟩ := sizeStep_ok_size _ d3 v h2 hv2
        refine ⟨n, ?_⟩
        show (dget d3 "file_size").getD (Value.int 0) = Value.int n
        rw [hn]
        rfl
      · exact dget_buildDict_str pairs

/-- C2 (witness): on the sample track node the raw strings "5" and "Z" reach
`track_id` and `album` unchanged. -/
theorem trackFromXml_coerces_only_rating_and_size_witness :
    sampleTrackXml.track_id = Value.str "5" ∧ sampleTrackXml.album = Value.str "Z" :=
  ⟨(trackFromXml_coerces_only_rating_and_size sampleTrackPairs sampleTrackXml rfl).1
      (Value.str "5") rfl,
    (trackFromXml_coerces_only_rating_and_size sampleTrackPairs sampleTrackXml rfl).2.2.2.1
      (Value.str "Z") rfl⟩

/-- C7: `star_rating` maps each percentage in increments of 20 to the
percentage divided by 20, and `None` to 0. -/
theorem star_rating_percent_table :
    star_rating (Value.int 0) = Except.ok 0 ∧
    star_rating (Value.int 20) = Except.ok 1 ∧
    star_rating (Value.int 40) = Except.ok 2 ∧
    star_rating (Value.int 60) = Except.ok 3 ∧
    star_rating (Value.int 80) = Except.ok 4 ∧
    star_rating (Value.int 100) = Except.ok 5 ∧
    star_rating Value.nil = Except.ok 0 :=
  ⟨rfl, rfl, rfl, rfl, rfl, rfl, rfl⟩

/-! ## Album lemmas -/

theorem charListLeb_total (a b : List Char) :
    charListLeb a b = true ∨ charListLeb b a = true := by
  induction a generalizing b with
  | nil => exact Or.inl rfl
  | cons x xs ih =>
    cases b with
    | nil => exact Or.inr rfl
    | cons y ys =>
      by_cases h1 : x.toNat < y.toNat
      · left
        simp [charListLeb, h1]
      · by_cases h2 : x.toNat = y.toNat
        · have h3 : ¬ (y.toNat < x.toNat) := by omega
          have h4 : y.toNat = x.toNat := h2.symm
          cases ih ys with
          | inl h => left; simp [charListLeb, h1, h2, h]
          | inr h => right; simp [charListLeb, h3, h4, h]
        · have h3 : y.toNat < x.toNat := by omega
          right
          simp [charListLeb, h3]

theorem charListLeb_trans (a b c : List Char) (hab : charListLeb a b = true)
    (hbc : charListLeb b c = true) : charListLeb a c = true := by
  induction a generalizing b c with
  | nil => rfl
  | cons x xs ih =>
    cases b with
    | nil => exact Bool.noConfusion hab
    | cons y ys =>
      cases c with
      | nil => exact Bool.noConfusion hbc
      | cons z zs =>
        simp only [charListLeb] at hab hbc ⊢
        split_ifs at hab hbc ⊢ <;>
          first
            | rfl
            | exact Bool.noConfusion hab
            | exact Bool.noConfusion hbc
            | exact ih ys zs hab hbc
            | omega

instance : IsTotal String pyStrLe :=
  ⟨fun a b => charListLeb_total a.data b.data⟩

instance : IsTrans String pyStrLe :=
  ⟨fun a b c => charListLeb_trans a.data b.data c.data⟩

/-- Concrete track in album "A" by artist "Beta". -/
def trA : Track := ⟨1, "s1", "Beta", "A", 1, Option.none, Option.none, 100, some 10⟩

/-- Concrete track in album "B" by artist "Alpha". -/
def trB : Track := ⟨2, "s2", "Alpha", "B", 0, Option.none, Option.none, 50, some 20⟩

/-- Concrete track in album "A" by artist "Alpha". -/
def trC : Track := ⟨3, "s3", "Alpha", "A", 3, Option.none, Option.none, 200, some 30⟩

/-- The `Album` produced by `Album.__init__` on `[trA, trC]`. -/
def albumA : Album := ⟨[trA, trC], "A", ["Alpha", "Beta"], [1, 3]⟩

/-- C4: constructing an Album from a non-empty track list with two tracks of
differing album names fails with the `ValueError` naming the album-property
mismatch, and construction succeeds whenever all tracks share one album
name. -/
theorem album_init_validation :
    (∀ (ts : List Track) (t1 t2 : Track), t1 ∈ ts → t2 ∈ ts → t1.album ≠ t2.album →
      Album.init ts = Except.error (PyError.valueError albumMismatchMsg)) ∧
    (∀ ts : List Track, ts ≠ [] →
      (∀ t1 ∈ ts, ∀ t2 ∈ ts, t1.album = t2.album) →
      ∃ a, Album.init ts = Except.ok a) := by
  constructor
  · intro ts t1 t2 h1 h2 hne
    cases ts with
    | nil => exact absurd h1 (List.not_mem_nil t1)
    | cons t0 rest =>
      have hall : ¬ ((t0 :: rest).all (fun t => decide (t.album = t0.album)) = true) := by
        intro hc
        rw [List.all_eq_true] at hc
        have e1 := of_decide_eq_true (hc t1 h1)
        have e2 := of_decide_eq_true (hc t2 h2)
        exact hne (e1.trans e2.symm)
      simp [Album.init, hall]
  · intro ts hne hall
    cases ts with
    | nil => exact absurd rfl hne
    | cons t0 rest =>
      have hcond : (t0 :: rest).all (fun t => decide (t.album = t0.album)) = true := by
        rw [List.all_eq_true]
        intro t ht
        exact decide_eq_true (hall t ht t0 (List.mem_cons_self t0 rest))
      refine ⟨⟨t0 :: rest, t0.album,
        List.insertionSort pyStrLe (((t0 :: rest).map (fun t => t.artist)).dedup),
        (t0 :: rest).map (fun t => t.rating)⟩, ?_⟩
      simp [Album.init, hcond]

/-- C4 (witness): mixing albums "A" and "B" is rejected with the
`ValueError`; a homogeneous list constructs. -/
theorem album_init_validation_witness :
    Album.init [trA, trB] = Except.error (PyError.valueError albumMismatchMsg) ∧
    (∃ a, Album.init [trA] = Except.ok a) :=
  ⟨album_init_validation.1 [trA, trB] trA trB (by decide) (by decide) (by decide),
    album_init_validation.2 [trA] (by decide) (by decide)⟩

/-- C3 (counterexample): `Album.__init__` on the empty track list raises
`IndexError` (from `tracks[0]`), which is not the deliberate album-mismatch
`ValueError`; there is no defined empty-group rejection. -/
theorem album_init_empty_indexError :
    Album.init ([] : List Track) = Except.error PyError.indexError ∧
    (∀ msg, PyError.indexError ≠ PyError.valueError msg) :=
  ⟨rfl, fun _ h => PyError.noConfusion h⟩

/-- C3 (amended): an Album cannot be constructed from zero tracks — the
constructor itself fails with an incidental `IndexError`, so the rating
statistics are never requested on an empty group; every constructed Album
has a non-empty track list, on which `min_rating`, `max_rating` and
`avg_rating` all succeed. -/
theorem album_stats_defined_on_constructed :
    Album.init ([] : List Track) = Except.error PyError.indexError ∧
    (∀ (ts : List Track) (a : Album), Album.init ts = Except.ok a →
      a.tracks ≠ [] ∧ (∃ m, a.min_rating = Except.ok m) ∧
      (∃ m, a.max_rating = Except.ok m) ∧ (∃ q, a.avg_rating = Except.ok q)) := by
  refine ⟨rfl, ?_⟩
  intro ts a h
  cases ts with
  | nil => exact Except.noConfusion h
  | cons t0 rest =>
    by_cases hcond : (t0 :: rest).all (fun t => decide (t.album = t0.album)) = true
    · simp only [Album.init, hcond, if_true, Except.ok.injEq] at h
      subst h
      exact ⟨List.cons_ne_nil t0 rest, ⟨_, rfl⟩, ⟨_, rfl⟩, ⟨_, rfl⟩⟩
    · simp only [Album.init, hcond, if_false] at h
      exact Except.noConfusion h

/-- C3 (witness): the amended statement evaluated on the concrete
two-track album. -/
theorem album_stats_defined_on_constructed_witness :
    albumA.tracks ≠ [] ∧ (∃ m, albumA.min_rating = Except.ok m) ∧
    (∃ m, albumA.max_rating = Except.ok m) ∧ (∃ q, albumA.avg_rating = Except.ok q) :=
  album_stats_defined_on_constructed.2 [trA, trC] albumA rfl

/-- C9: the artists of every constructed Album are exactly the distinct
artist names of its member tracks, sorted ascending (Python string order:
lexicographic by code point) and duplicate-free. -/
theorem album_artists_sorted (ts : List Track) (a : Album)
    (h : Album.init ts = Except.ok a) :
    List.Sorted pyStrLe a.artists ∧ a.artists.Nodup ∧
    (∀ s, s ∈ a.artists ↔ s ∈ ts.map (fun t => t.artist)) := by
  cases ts with
  | nil => exact Except.noConfusion h
  | cons t0 rest =>
    by_cases hcond : (t0 :: rest).all (fun t => decide (t.album = t0.album)) = true
    · simp only [Album.init, hcond, if_true, Except.ok.injEq] at h
      subst h
      refine ⟨List.sorted_insertionSort pyStrLe _, ?_, ?_⟩
      · exact ((List.perm_insertionSort pyStrLe _).nodup_iff).mpr (List.nodup_dedup _)
      · intro s
        rw [(List.perm_insertionSort pyStrLe _).mem_iff, List.mem_dedup]
    · simp only [Album.init, hcond, if_false] at h
      exact Except.noConfusion h

/-- C9 (witness): on the concrete two-track album the artists list
["Alpha", "Beta"] is sorted, duplicate-free, and carries both artists. -/
theorem album_artists_sorted_witness :
    List.Sorted pyStrLe albumA.artists ∧ albumA.artists.Nodup ∧
    (∀ s, s ∈ albumA.artists ↔ s ∈ [trA, trC].map (fun t => t.artist)) :=
  album_artists_sorted [trA, trC] albumA rfl

/-! ## snake_case lemmas -/

/-- The character map the spec describes for `normalize`: each space becomes
an underscore and every other character is lower-cased. -/
def specNormalizeChar (c : Char) : Char :=
  if c = ' ' then '_' else Char.toLower c

/-- The spec's description of `normalize(name)`: the lower-case form with
every space replaced by an underscore (stated characterwise). -/
def spec_normalize (s : String) : String :=
  ⟨s.data.map specNormalizeChar⟩

theorem char_toNat_ofNat_valid (n : Nat) (h : n < 55296) : (Char.ofNat n).toNat = n := by
  rw [Char.ofNat, dif_pos (Or.inl h)]
  rfl

theorem char_toLower_eq (c : Char) :
    Char.toLower c = if 65 ≤ c.toNat ∧ c.toNat ≤ 90 then Char.ofNat (c.toNat + 32) else c :=
  rfl

theorem toLower_toNat_upper (c : Char) (h : 65 ≤ c.toNat ∧ c.toNat ≤ 90) :
    (Char.toLower c).toNat = c.toNat + 32 := by
  rw [char_toLower_eq, if_pos h]
  exact char_toNat_ofNat_valid _ (by omega)

theorem toLower_eq_self (c : Char) (h : ¬ (65 ≤ c.toNat ∧ c.toNat ≤ 90)) :
    Char.toLower c = c := by
  rw [char_toLower_eq, if_neg h]

theorem toLower_ne_space (c : Char) (h : c ≠ ' ') : Char.toLower c ≠ ' ' := by
  by_cases hu : 65 ≤ c.toNat ∧ c.toNat ≤ 90
  · intro hc
    have h1 := toLower_toNat_upper c hu
    rw [hc] at h1
    have h32 : (' ').toNat = 32 := rfl
    omega
  · rw [toLower_eq_self c hu]
    exact h

theorem toLower_toLower (c : Char) : Char.toLower (Char.toLower c) = Char.toLower c := by
  by_cases hu : 65 ≤ c.toNat ∧ c.toNat ≤ 90
  · have h1 := toLower_toNat_upper c hu
    have h2 : ¬ (65 ≤ (Char.toLower c).toNat ∧ (Char.toLower c).toNat ≤ 90) := by omega
    exact toLower_eq_self _ h2
  · rw [toLower_eq_self c hu, toLower_eq_self c hu]

theorem snakeChar_eq (c : Char) :
    (if Char.toLower c = ' ' then '_' else Char.toLower c) = specNormalizeChar c := by
  by_cases hc : c = ' '
  · subst hc
    decide
  · rw [specNormalizeChar, if_neg hc, if_neg (toLower_ne_space c hc)]

theorem specNormalizeChar_ne_space (c : Char) (hc : c ≠ ' ') :
    specNormalizeChar c = Char.toLower c :=
  if_neg hc

theorem specNormalizeChar_idem (c : Char) :
    specNormalizeChar (specNormalizeChar c) = specNormalizeChar c := by
  by_cases hc : c = ' '
  · subst hc
    decide
  · rw [specNormalizeChar_ne_space c hc,
      specNormalizeChar_ne_space _ (toLower_ne_space c hc), toLower_toLower]

/-- C8: `snake_case` is exactly the spec's normalization — lower-case with
every space replaced by an underscore — and it is idempotent on every
string. -/
theorem snake_case_normalizes :
    (∀ s : String, snake_case s = spec_normalize s) ∧
    (∀ s : String, snake_case (snake_case s) = snake_case s) := by
  have key : ∀ s : String, snake_case s = spec_normalize s := by
    intro s
    show String.mk ((s.data.map Char.toLower).map (fun c => if c = ' ' then '_' else c)) =
      String.mk (s.data.map specNormalizeChar)
    rw [List.map_map]
    exact congrArg String.mk (List.map_congr_left (fun c _ => snakeChar_eq c))
  refine ⟨key, ?_⟩
  intro s
  rw [key s, key (spec_normalize s)]
  show String.mk ((s.data.map specNormalizeChar).map specNormalizeChar) = _
  rw [List.map_map]
  exact congrArg String.mk (List.map_congr_left (fun c _ => specNormalizeChar_idem c))

/-- C8 (witness): the normalization and idempotence evaluated on the field
name "Track ID". -/
theorem snake_case_normalizes_witness :
    snake_case "Track ID" = spec_normalize "Track ID" ∧
    snake_case (snake_case "Track ID") = snake_case "Track ID" ∧
    snake_case "Track ID" = "track_id" :=
  ⟨snake_case_normalizes.1 "Track ID", snake_case_normalizes.2 "Track ID", by decide⟩

/-! ## Grouping lemmas -/

theorem groupTracks_snoc (ts : List Track) (t : Track) :
    groupTracks (ts ++ [t]) = addTrack (groupTracks ts) t := by
  rw [groupTracks, List.foldl_append]
  rfl

theorem firstKeys_snoc (ts : List Track) (t : Track) :
    firstKeys (ts ++ [t]) = keyStep (firstKeys ts) t := by
  rw [firstKeys, List.foldl_append]
  rfl

theorem mem_foldl_keys (ts : List Track) :
    ∀ (acc : List (String × Option Int)) (k : String × Option Int),
      (k ∈ ts.foldl keyStep acc ↔ k ∈ acc ∨ ∃ t, t ∈ ts ∧ groupKey t = k) := by
  induction ts with
  | nil => intro acc k; simp
  | cons t ts ih =>
    intro acc k
    rw [List.foldl_cons]
    constructor
    · intro hh
      rcases (ih _ k).mp hh with h1 | ⟨t', ht', he⟩
      · by_cases h : groupKey t ∈ acc
        · rw [keyStep, if_pos h] at h1
          exact Or.inl h1
        · rw [keyStep, if_neg h] at h1
          rcases List.mem_append.mp h1 with h2 | h2
          · exact Or.inl h2
          · exact Or.inr ⟨t, List.mem_cons_self t ts, (List.mem_singleton.mp h2).symm⟩
      · exact Or.inr ⟨t', List.mem_cons_of_mem t ht', he⟩
    · intro hh
      apply (ih _ k).mpr
      rcases hh with h1 | ⟨t', ht', he⟩
      · left
        by_cases h : groupKey t ∈ acc
        · rw [keyStep, if_pos h]; exact h1
        · rw [keyStep, if_neg h]; exact List.mem_append_left _ h1
      · rcases List.mem_cons.mp ht' with rfl | h2
        · left
          by_cases h : groupKey t' ∈ acc
          · rw [keyStep, if_pos h]
            exact he ▸ h
          · rw [keyStep, if_neg h]
            exact List.mem_append_right _ (List.mem_singleton.mpr he.symm)
        · exact Or.inr ⟨t', h2, he⟩

theorem mem_firstKeys (ts : List Track) (k : String × Option Int) :
    k ∈ firstKeys ts ↔ ∃ t, t ∈ ts ∧ groupKey t = k := by
  rw [firstKeys, mem_foldl_keys]
  simp

theorem nodup_foldl_keys (ts : List Track) :
    ∀ acc : List (String × Option Int), acc.Nodup → (ts.foldl keyStep acc).Nodup := by
  induction ts with
  | nil => intro acc h; exact h
  | cons t ts ih =>
    intro acc h
    rw [List.foldl_cons]
    apply ih
    by_cases hm : groupKey t ∈ acc
    · rw [keyStep, if_pos hm]; exact h
    · rw [keyStep, if_neg hm]
      rw [List.nodup_append]
      exact ⟨h, List.nodup_singleton _, by simpa using hm⟩

theorem nodup_firstKeys (ts : List Track) : (firstKeys ts).Nodup :=
  nodup_foldl_keys ts [] List.nodup_nil

theorem any_map_general {α β : Type} (f : α → β) (l : List α) (p : β → Bool) :
    (l.map f).any p = l.any (fun a => p (f a)) := by
  induction l with
  | nil => rfl
  | cons x xs ih => simp [ih]

theorem groupTracks_eq (ts : List Track) :
    groupTracks ts = (firstKeys ts).map
      (fun k => (k, ts.filter (fun t => decide (groupKey t = k)))) := by
  induction ts using List.reverseRecOn with
  | nil => rfl
  | append_singleton ts t ih =>
    rw [groupTracks_snoc, firstKeys_snoc, ih]
    by_cases h : groupKey t ∈ firstKeys ts
    · rw [keyStep, if_pos h]
      have hany : ((firstKeys ts).map
          (fun k => (k, ts.filter (fun t2 => decide (groupKey t2 = k))))).any
            (fun p => decide (p.1 = groupKey t)) = true := by
        rw [any_map_general, List.any_eq_true]
        exact ⟨groupKey t, h, by simp⟩
      rw [addTrack, if_pos (of_decide_eq_true (by simpa using hany))]
      rw [List.map_map]
      apply List.map_congr_left
      intro k hk
      by_cases hkt : k = groupKey t
      · have hgt : (decide (groupKey t = k)) = true := decide_eq_true hkt.symm
        simp only [Function.comp_apply, if_pos hkt, List.filter_append,
          List.filter_cons, List.filter_nil, hgt, if_true]
      · have hgt : (decide (groupKey t = k)) = false :=
          decide_eq_false (fun hh => hkt hh.symm)
        simp only [Function.comp_apply, if_neg hkt, List.filter_append,
          List.filter_cons, List.filter_nil, hgt]
        simp
    · rw [keyStep, if_neg h]
      have hany : ((firstKeys ts).map
          (fun k => (k, ts.filter (fun t2 => decide (groupKey t2 = k))))).any
            (fun p => decide (p.1 = groupKey t)) = false := by
        rw [any_map_general, List.any_eq_false]
        intro k hk
        simp only [decide_eq_true_eq]
        intro hh
        exact h (hh ▸ hk)
      rw [addTrack, if_neg (by simp [hany])]
      rw [List.map_append]
      have hfil : ts.filter (fun t2 => decide (groupKey t2 = groupKey t)) = [] := by
        rw [List.filter_eq_nil_iff]
        intro t' ht'
        simp only [decide_eq_true_eq]
        intro hh
        exact h ((mem_firstKeys ts (groupKey t)).mpr ⟨t', ht', hh⟩)
      congr 1
      · apply List.map_congr_left
        intro k hk
        have hgt : (decide (groupKey t = k)) = false :=
          decide_eq_false (fun hh => h (hh ▸ hk))
        simp only [Function.comp_apply, List.filter_append, List.filter_cons,
          List.filter_nil, hgt]
        simp
      · simp only [List.map_cons, List.map_nil, List.filter_append, hfil,
          List.filter_cons, List.filter_nil, decide_eq_true_eq]
        simp

/-- The Album that `Album(tracks)` builds for one entry of the grouping
dict. -/
def albumOfGroup (p : (String × Option Int) × List Track) : Album :=
  ⟨p.2, p.1.1,
    List.insertionSort pyStrLe ((p.2.map (fun t => t.artist)).dedup),
    p.2.map (fun t => t.rating)⟩

theorem album_init_group (p : (String × Option Int) × List Track)
    (hne : p.2 ≠ []) (hkey : ∀ t ∈ p.2, groupKey t = p.1) :
    Album.init p.2 = Except.ok (albumOfGroup p) := by
  obtain ⟨k, g⟩ := p
  cases g with
  | nil => exact absurd rfl hne
  | cons t0 rest =>
    have h3 : t0.album = k.1 :=
      congrArg Prod.fst (hkey t0 (List.mem_cons_self t0 rest))
    have hcond : (t0 :: rest).all (fun t => decide (t.album = t0.album)) = true := by
      rw [List.all_eq_true]
      intro t ht
      apply decide_eq_true
      have h1 : t.album = k.1 := congrArg Prod.fst (hkey t ht)
      rw [h1, h3]
    simp only [Album.init, hcond, if_true, albumOfGroup]
    rw [h3]

theorem mapExcept_ok_map {α β : Type} (f : α → Except PyError β) (g : α → β)
    (l : List α) (H : ∀ x ∈ l, f x = Except.ok (g x)) :
    mapExcept f l = Except.ok (l.map g) := by
  induction l with
  | nil => rfl
  | cons x xs ih =>
    have h1 := H x (List.mem_cons_self x xs)
    have h2 := ih (fun y hy => H y (List.mem_cons_of_mem x hy))
    simp only [mapExcept, h1, h2, List.map_cons]

theorem group_facts (ts : List Track) (p : (String × Option Int) × List Track)
    (hp : p ∈ groupTracks ts) :
    p.2 ≠ [] ∧ (∀ t ∈ p.2, groupKey t = p.1) ∧ p.1 ∈ firstKeys ts ∧
      p.2 = ts.filter (fun t => decide (groupKey t = p.1)) := by
  rw [groupTracks_eq] at hp
  obtain ⟨k, hk, he⟩ := List.mem_map.mp hp
  obtain ⟨t0, ht0, hk0⟩ := (mem_firstKeys ts k).mp hk
  rw [← he]
  refine ⟨?_, ?_, hk, rfl⟩
  · exact List.ne_nil_of_mem (List.mem_filter.mpr ⟨ht0, decide_eq_true hk0⟩)
  · intro t ht
    exact of_decide_eq_true (List.mem_filter.mp ht).2

theorem to_albums_eq (lib : Library) (albums : List Album)
    (h : lib.to_albums = Except.ok albums) :
    albums = (groupTracks lib.tracks).map albumOfGroup := by
  have H : mapExcept (fun p => Album.init p.2) (groupTracks lib.tracks)
      = Except.ok ((groupTracks lib.tracks).map albumOfGroup) := by
    apply mapExcept_ok_map
    intro p hp
    obtain ⟨h1, h2, _, _⟩ := group_facts lib.tracks p hp
    exact album_init_group p h1 h2
  rw [Library.to_albums, H] at h
  exact (Except.ok.inj h).symm

theorem to_albums_tracks (lib : Library) (albums : List Album)
    (h : lib.to_albums = Except.ok albums) :
    albums.map (fun a => a.tracks) = (firstKeys lib.tracks).map
      (fun k => lib.tracks.filter (fun t => decide (groupKey t = k))) := by
  rw [to_albums_eq lib albums h, groupTracks_eq, List.map_map, List.map_map]
  rfl

theorem sum_map_ite (K : List (String × Option Int)) (hK : K.Nodup)
    (k0 : String × Option Int) (c : Nat) :
    (K.map (fun k => if k = k0 then c else 0)).sum = if k0 ∈ K then c else 0 := by
  induction K with
  | nil => simp
  | cons k ks ih =>
    rw [List.map_cons, List.sum_cons, ih (List.nodup_cons.mp hK).2]
    by_cases hk : k = k0
    · subst hk
      have hnot : k ∉ ks := (List.nodup_cons.mp hK).1
      simp [hnot]
    · have hk2 : ¬ (k0 = k) := fun hh => hk hh.symm
      simp [hk, hk2]

theorem countP_key (K : List (String × Option Int)) (hK : K.Nodup)
    (k0 : String × Option Int) (hk : k0 ∈ K) :
    K.countP (fun k => decide (k = k0)) = 1 := by
  induction K with
  | nil => cases hk
  | cons k ks ih =>
    rw [List.countP_cons]
    by_cases h : k = k0
    · subst h
      have hnot : k ∉ ks := (List.nodup_cons.mp hK).1
      have hz : ks.countP (fun k2 => decide (k2 = k)) = 0 := by
        rw [List.countP_eq_zero]
        intro a ha
        simp only [decide_eq_true_eq]
        intro hh
        exact hnot (hh ▸ ha)
      simp [hz]
    · rcases List.mem_cons.mp hk with rfl | h2
      · exact absurd rfl h
      · rw [ih (List.nodup_cons.mp hK).2 h2]
        simp [h]

/-- C5: grouping is a partition of the library — the album track counts sum
to the library track count, each track occurs in the concatenation of the
album track lists exactly as often as in the library, and each library track
lies in exactly one returned Album. -/
theorem to_albums_partition (lib : Library) (albums : List Album)
    (h : lib.to_albums = Except.ok albums) :
    ((albums.map (fun a => a.tracks.length)).sum = lib.tracks.length) ∧
    (∀ t : Track, ((albums.map (fun a => a.tracks)).flatten).count t = lib.tracks.count t) ∧
    (∀ t ∈ lib.tracks, albums.countP (fun a => decide (t ∈ a.tracks)) = 1) := by
  have hcount : ∀ t : Track,
      ((albums.map (fun a => a.tracks)).flatten).count t = lib.tracks.count t := by
    intro t
    rw [to_albums_tracks lib albums h, List.count_flatten, List.map_map]
    have hcong : List.map (List.count t ∘ fun k =>
          lib.tracks.filter (fun t2 => decide (groupKey t2 = k))) (firstKeys lib.tracks) =
        List.map (fun k => if k = groupKey t then lib.tracks.count t else 0)
          (firstKeys lib.tracks) := by
      apply List.map_congr_left
      intro k hk
      by_cases hkt : k = groupKey t
      · subst hkt
        rw [if_pos rfl]
        exact List.count_filter (decide_eq_true rfl)
      · rw [if_neg hkt]
        show List.count t (lib.tracks.filter (fun t2 => decide (groupKey t2 = k))) = 0
        rw [List.count_eq_zero]
        intro hc
        exact hkt (of_decide_eq_true (List.mem_filter.mp hc).2).symm
    rw [hcong, sum_map_ite _ (nodup_firstKeys lib.tracks)]
    by_cases hmem : groupKey t ∈ firstKeys lib.tracks
    · rw [if_pos hmem]
    · rw [if_neg hmem]
      symm
      rw [List.count_eq_zero]
      intro hts
      exact hmem ((mem_firstKeys lib.tracks (groupKey t)).mpr ⟨t, hts, rfl⟩)
  refine ⟨?_, hcount, ?_⟩
  · have hperm : ((albums.map (fun a => a.tracks)).flatten).Perm lib.tracks :=
      List.perm_iff_count.mpr hcount
    calc (albums.map (fun a => a.tracks.length)).sum
        = ((albums.map (fun a => a.tracks)).map List.length).sum := by rw [List.map_map]; rfl
      _ = (albums.map (fun a => a.tracks)).flatten.length :=
          (List.length_flatten _).symm
      _ = lib.tracks.length := hperm.length_eq
  · intro t ht
    rw [to_albums_eq lib albums h, groupTracks_eq, List.map_map, List.countP_map]
    have hcong : (firstKeys lib.tracks).countP
        ((fun a => decide (t ∈ a.tracks)) ∘ (albumOfGroup ∘ fun k =>
          (k, lib.tracks.filter (fun t2 => decide (groupKey t2 = k))))) =
        (firstKeys lib.tracks).countP (fun k => decide (k = groupKey t)) := by
      apply List.countP_congr
      intro k hk
      simp only [Function.comp_apply, decide_eq_true_eq]
      constructor
      · intro hm
        exact (of_decide_eq_true (List.mem_filter.mp hm).2).symm
      · intro hm
        exact List.mem_filter.mpr ⟨ht, decide_eq_true hm.symm⟩
    rw [hcong]
    exact countP_key _ (nodup_firstKeys lib.tracks) (groupKey t)
      ((mem_firstKeys lib.tracks (groupKey t)).mpr ⟨t, ht, rfl⟩)

/-- C6: `to_albums` returns the Albums in first-seen order of their grouping
keys, and inside each Album the tracks keep their relative input order (each
album track list is the stable filter of the input sequence by its key, hence
a sublist of it). -/
theorem to_albums_order (lib : Library) (albums : List Album)
    (h : lib.to_albums = Except.ok albums) :
    (albums.map (fun a => a.tracks) = (firstKeys lib.tracks).map
      (fun k => lib.tracks.filter (fun t => decide (groupKey t = k)))) ∧
    (∀ a ∈ albums, a.tracks.Sublist lib.tracks ∧ a.tracks ≠ []) := by
  refine ⟨to_albums_tracks lib albums h, ?_⟩
  intro a ha
  rw [to_albums_eq lib albums h] at ha
  obtain ⟨p, hp, he⟩ := List.mem_map.mp ha
  obtain ⟨h1, _, _, h4⟩ := group_facts lib.tracks p hp
  constructor
  · rw [← he]
    show p.2.Sublist lib.tracks
    rw [h4]
    exact List.filter_sublist lib.tracks
  · rw [← he]
    exact h1

/-- C10: two library tracks land in the same returned Album exactly when
they agree on both album name and year — the grouping key is the pair
`(album, year)`. -/
theorem to_albums_same_key (lib : Library) (albums : List Album)
    (h : lib.to_albums = Except.ok albums) :
    ∀ t1 ∈ lib.tracks, ∀ t2 ∈ lib.tracks,
      ((∃ a ∈ albums, t1 ∈ a.tracks ∧ t2 ∈ a.tracks) ↔
        (t1.album = t2.album ∧ t1.year = t2.year)) := by
  intro t1 h1 t2 h2
  constructor
  · rintro ⟨a, ha, hm1, hm2⟩
    rw [to_albums_eq lib albums h] at ha
    obtain ⟨p, hp, hap⟩ := List.mem_map.mp ha
    obtain ⟨_, hkeys, _, _⟩ := group_facts lib.tracks p hp
    have hma : t1 ∈ p.2 := by rw [← hap] at hm1; exact hm1
    have hmb : t2 ∈ p.2 := by rw [← hap] at hm2; exact hm2
    have hk12 : groupKey t1 = groupKey t2 := (hkeys t1 hma).trans (hkeys t2 hmb).symm
    exact ⟨congrArg Prod.fst hk12, congrArg Prod.snd hk12⟩
  · rintro ⟨ha, hy⟩
    have hk : groupKey t1 = groupKey t2 := by
      rw [groupKey, groupKey, ha, hy]
    refine ⟨albumOfGroup ⟨groupKey t1,
      lib.tracks.filter (fun t => decide (groupKey t = groupKey t1))⟩, ?_, ?_, ?_⟩
    · rw [to_albums_eq lib albums h, groupTracks_eq, List.map_map]
      exact List.mem_map.mpr ⟨groupKey t1,
        (mem_firstKeys lib.tracks (groupKey t1)).mpr ⟨t1, h1, rfl⟩, rfl⟩
    · exact List.mem_filter.mpr ⟨h1, decide_eq_true rfl⟩
    · exact List.mem_filter.mpr ⟨h2, decide_eq_true hk.symm⟩

/-- The `Album` produced by `Album.__init__` on `[trB]`. -/
def albumB : Album := ⟨[trB], "B", ["Alpha"], [0]⟩

/-- Concrete three-track library: two tracks in album "A", one in "B". -/
def lib0 : Library := ⟨[trA, trB, trC]⟩

/-- C5 (witness): the partition statement evaluated on the concrete
three-track library. -/
theorem to_albums_partition_witness :
    (([albumA, albumB].map (fun a => a.tracks.length)).sum = lib0.tracks.length) ∧
    ((([albumA, albumB].map (fun a => a.tracks)).flatten).count trA = lib0.tracks.count trA) ∧
    ([albumA, albumB].countP (fun a => decide (trA ∈ a.tracks)) = 1) :=
  ⟨(to_albums_partition lib0 [albumA, albumB] rfl).1,
    (to_albums_partition lib0 [albumA, albumB] rfl).2.1 trA,
    (to_albums_partition lib0 [albumA, albumB] rfl).2.2 trA (by decide)⟩

/-- C6 (witness): the ordering statement evaluated on the concrete
three-track library. -/
theorem to_albums_order_witness :
    ([albumA, albumB].map (fun a => a.tracks) = (firstKeys lib0.tracks).map
      (fun k => lib0.tracks.filter (fun t => decide (groupKey t = k)))) ∧
    albumA.tracks.Sublist lib0.tracks ∧ albumA.tracks ≠ [] :=
  ⟨(to_albums_order lib0 [albumA, albumB] rfl).1,
    ((to_albums_order lib0 [albumA, albumB] rfl).2 albumA (by decide)).1,
    ((to_albums_order lib0 [albumA, albumB] rfl).2 albumA (by decide)).2⟩

/-- C10 (witness): in the concrete library, trA and trC (same album and
year) share an Album while trA and trB (different albums) do not. -/
theorem to_albums_same_key_witness :
    (∃ a ∈ [albumA, albumB], trA ∈ a.tracks ∧ trC ∈ a.tracks) ∧
    ¬ (∃ a ∈ [albumA, albumB], trA ∈ a.tracks ∧ trB ∈ a.tracks) :=
  ⟨(to_albums_same_key lib0 [albumA, albumB] rfl trA (by decide) trC (by decide)).mpr
      (by decide),
    fun hc => absurd
      ((to_albums_same_key lib0 [albumA, albumB] rfl trA (by decide) trB (by decide)).mp hc).1
      (by decide)⟩

end ITunes
